import Mathlib

/-!
Verification of the TaskFlow Lite task manager.

This file is a shallow embedding, in Lean 4, of the core of the repository:
the validation module (`validation.js`), the storage module (`storage.js`),
the task store operations of the main application class, and the view
filter of the render module.  JavaScript strings are modelled as
`List Char`, JavaScript numbers appearing as task ids as `Nat`, and the
single localStorage slot as an explicit `StoredPayload` value threaded
through the operations.  `JSON.parse`/`JSON.stringify` are abstracted by a
small JavaScript-value model (`JVal`): a payload is either absent,
unparsable (`corrupted`), parsable but not an object, or a parsed envelope
whose `tasks` field, when present and an array, is a list of raw entries
with fields of arbitrary JavaScript type.  All definitions are computable,
so all concrete witnesses evaluate by `decide`.
-/

deriving instance DecidableEq for Except

namespace TaskFlow

/-- Whitespace recognised by JavaScript `String.prototype.trim` and the
regular-expression class `\s`, restricted to the code points relevant
here (ASCII whitespace plus the common Unicode space characters). -/
def jsWhitespace (c : Char) : Bool :=
  c = ' ' || c = '\t' || c = '\n' || c = '\r' ||
  c.toNat = 11 || c.toNat = 12 || c.toNat = 0xA0 || c.toNat = 0x2028 ||
  c.toNat = 0x2029 || c.toNat = 0xFEFF

/-- JavaScript `text.trim()`: drop leading whitespace, then drop trailing
whitespace (implemented by reversing, dropping, and reversing back). -/
def jsTrim (l : List Char) : List Char :=
  (((l.dropWhile jsWhitespace).reverse).dropWhile jsWhitespace).reverse

/-- JavaScript `text.toLowerCase()`.  Only ASCII letters are mapped; every
string this is applied to inside the validator has already passed the
ASCII-only allow-set, so this is faithful there. -/
def toLowerList (l : List Char) : List Char :=
  l.map Char.toLower

/-- Does `w` occur at the head of `l`?  Helper for the substring test. -/
def leadMatch : List Char → List Char → Bool
  | [], _ => true
  | _ :: _, [] => false
  | a :: w, b :: l => a == b && leadMatch w l

/-- JavaScript `l.includes(w)`: does `w` occur as a contiguous
subsequence of `l`? -/
def containsSeq (w : List Char) : List Char → Bool
  | [] => w.isEmpty
  | b :: l => leadMatch w (b :: l) || containsSeq w l

/-- Characters of the `ALLOWED_CHARS` class
`[a-zA-Z0-9\s\-_.,!?@#$%&*()+=:;"'<>[\]\x7b\x7d|\\/~\x60]`
from `validation.js` (the punctuation is listed by code point). -/
def allowedChar (c : Char) : Bool :=
  decide ('a' ≤ c ∧ c ≤ 'z') || decide ('A' ≤ c ∧ c ≤ 'Z') ||
  decide ('0' ≤ c ∧ c ≤ '9') || jsWhitespace c ||
  [45, 95, 46, 44, 33, 63, 64, 35, 36, 37, 38, 42, 40, 41, 43, 61, 58, 59,
   34, 39, 60, 62, 91, 93, 123, 125, 124, 92, 47, 126, 96].contains c.toNat

/-- The test `ALLOWED_CHARS.test(s)`: the regex anchors `^...+$`, so the
string must be non-empty and all its characters must be in the class. -/
def allowedAll (l : List Char) : Bool :=
  !l.isEmpty && l.all allowedChar

/-- The `FORBIDDEN_WORDS` list from `validation.js`. -/
def forbiddenWords : List (List Char) :=
  ["script".toList, "javascript".toList, "onload".toList,
   "onerror".toList, "onclick".toList]

/-- The forbidden-word loop of `validateTaskText`: some forbidden word is a
substring of the lower-cased text. -/
def hasForbidden (l : List Char) : Bool :=
  forbiddenWords.any fun w => containsSeq w (toLowerList l)

/-- The test `/\s\x7b3,\x7d/.test(s)`: three consecutive whitespace characters. -/
def hasWsRun : List Char → Bool
  | a :: b :: c :: rest =>
      (jsWhitespace a && jsWhitespace b && jsWhitespace c) || hasWsRun (b :: c :: rest)
  | _ => false

/-- The test `/(.)\1\x7b4,\x7d/.test(s)`: five identical consecutive characters.
The regex dot does not match line terminators, but inside
`validateTaskText` this check only runs after the whitespace-run check has
rejected any three consecutive whitespace characters, so a five-long run of
line terminators can never reach it; on the reachable inputs this model is
exact. -/
def hasRepeatRun : List Char → Bool
  | a :: b :: c :: d :: e :: rest =>
      (a == b && b == c && c == d && d == e) || hasRepeatRun (b :: c :: d :: e :: rest)
  | _ => false

/-- Message of the initial `!text || typeof text !== 'string'` check. -/
def msgRequired : String := "Please enter a task description"

/-- Message of the minimum-length check. -/
def msgEmpty : String := "Task description cannot be empty"

/-- Message of the maximum-length check (with `MAX_LENGTH = 200` spliced in). -/
def msgTooLong : String := "Task description cannot exceed 200 characters"

/-- Message of the allowed-characters check. -/
def msgInvalidChars : String := "Task description contains invalid characters"

/-- Message of the forbidden-words check. -/
def msgForbidden : String := "Task description contains forbidden content"

/-- Message of the excessive-whitespace check. -/
def msgWhitespace : String := "Task description contains excessive whitespace"

/-- Message of the repeated-characters check. -/
def msgRepetitive : String := "Task description contains too many repeated characters"

/-- Result record of `validateTaskText`: `isValid`, `message` and, on
success, the trimmed text in `sanitizedText`. -/
structure ValidationResult where
  isValid : Bool
  message : String
  sanitizedText : Option (List Char) := none
deriving DecidableEq, Repr

/-- `validateTaskText` from `validation.js`.  The input is an
`Option (List Char)`: `none` models `null`/`undefined`/non-string input,
which the first check rejects together with the empty string (both are
falsy). -/
def validateTaskText : Option (List Char) → ValidationResult
  | none => ⟨false, msgRequired, none⟩
  | some l =>
    if l = [] then ⟨false, msgRequired, none⟩
    else if (jsTrim l).length < 1 then ⟨false, msgEmpty, none⟩
    else if (jsTrim l).length > 200 then ⟨false, msgTooLong, none⟩
    else if !allowedAll (jsTrim l) then ⟨false, msgInvalidChars, none⟩
    else if hasForbidden (jsTrim l) then ⟨false, msgForbidden, none⟩
    else if hasWsRun (jsTrim l) then ⟨false, msgWhitespace, none⟩
    else if hasRepeatRun (jsTrim l) then ⟨false, msgRepetitive, none⟩
    else ⟨true, "", some (jsTrim l)⟩

example : (validateTaskText (some "Buy milk".toList)).isValid = true := by decide
example : (validateTaskText (some " ".toList)).message = msgEmpty := by decide
example : (validateTaskText (some "hello <script>".toList)).message = msgForbidden := by decide
example : (validateTaskText (some "aaaaa".toList)).message = msgRepetitive := by decide
example : (validateTaskText (some "a   b".toList)).message = msgWhitespace := by decide

/-- A task object, `\x7bid, text, completed, createdAt\x7d`, as created by
`createTask` in the application class.  Ids are modelled as `Nat`. -/
structure Task where
  id : Nat
  text : List Char
  completed : Bool
  createdAt : String
deriving DecidableEq, Repr

/-- The normalisation used by `checkForDuplicates`:
`text.trim().toLowerCase()`. -/
def normalizeText (l : List Char) : List Char :=
  toLowerList (jsTrim l)

/-- `checkForDuplicates` from `validation.js`, returning its
`hasDuplicates` field: the filter of the existing tasks whose normalised
text equals the normalised new text is non-empty.  (The `existingTasks`
argument is always an array here, so the non-array guard is vacuous.) -/
def checkForDuplicates (newTaskText : List Char) (existingTasks : List Task) : Bool :=
  decide (0 < (existingTasks.filter fun task =>
    normalizeText task.text == normalizeText newTaskText).length)

/-- Message of the id check in `validateTaskObject`. -/
def msgInvalidId : String := "Task must have a valid ID"

/-- Message of the text-shape check in `validateTaskObject`. -/
def msgInvalidText : String := "Task must have a valid text description"

/-- `validateTaskObject` from `validation.js`.  The `typeof` checks on
`id`, `text` and `completed` are enforced by the `Task` type itself; the
remaining content checks are `id > 0` (`id ≠ 0` on `Nat`), non-empty
trimmed text, and `validateTaskText`; on success the task is returned with
its text replaced by the sanitized (trimmed) text. -/
def validateTaskObject (task : Task) : Except String Task :=
  if task.id = 0 then .error msgInvalidId
  else if (jsTrim task.text).length = 0 then .error msgInvalidText
  else if (validateTaskText (some task.text)).isValid then
    match (validateTaskText (some task.text)).sanitizedText with
    | some st => .ok { task with text := st }
    | none => .error (validateTaskText (some task.text)).message
  else .error (validateTaskText (some task.text)).message

/-- `createTask` from the application class.  The id
(`Date.now() + Math.random()`) and the creation timestamp are external
inputs of the model. -/
def createTask (text : List Char) (newId : Nat) (now : String) : Task :=
  { id := newId, text := jsTrim text, completed := false, createdAt := now }

/-- A JavaScript value as far as the storage shape checks can observe it:
a number, a string, a boolean, or anything else. -/
inductive JVal where
  | num (n : Nat)
  | str (s : List Char)
  | bool (b : Bool)
  | other
deriving DecidableEq, Repr

/-- A parsed array entry that is an object: its `id`, `text` and
`completed` fields as JavaScript values (`createdAt` is never inspected
by the load filter and is carried through as a string). -/
structure RawTask where
  id : JVal
  text : JVal
  completed : JVal
  createdAt : String
deriving DecidableEq, Repr

/-- One entry of the parsed `tasks` array: either an object or some
non-object value (`null`, a number, ...), which the load filter drops. -/
inductive JEntry where
  | obj (r : RawTask)
  | nonObj
deriving DecidableEq, Repr

/-- The parsed envelope `\x7bversion, timestamp, tasks\x7d`.  `tasksField = none`
models a missing, falsy or non-array `tasks` field. -/
structure Envelope where
  version : String
  timestamp : Nat
  tasksField : Option (List JEntry)
deriving DecidableEq, Repr

/-- The single localStorage slot under `taskflow_tasks`, as `loadTasks`
can observe it: absent, present but unparsable (`JSON.parse` throws a
`SyntaxError`), parsable but not an object, or a parsed envelope. -/
inductive StoredPayload where
  | absent
  | corrupted
  | parsedNonObject
  | parsed (env : Envelope)
deriving DecidableEq, Repr

/-- Serialisation of a task by `JSON.stringify`, field by field. -/
def encodeTask (t : Task) : JEntry :=
  .obj { id := .num t.id, text := .str t.text, completed := .bool t.completed,
         createdAt := t.createdAt }

/-- The per-entry filter of `loadTasks`: keep an entry exactly when it is
an object whose `id` is a number, `text` is a string and `completed` is a
boolean, and read the task out of it. -/
def decodeEntry : JEntry → Option Task
  | .nonObj => none
  | .obj r =>
    match r.id, r.text, r.completed with
    | .num i, .str s, .bool b => some { id := i, text := s, completed := b,
                                        createdAt := r.createdAt }
    | _, _, _ => none

/-- `saveTasks` from `storage.js`: wrap the tasks in a
`\x7bversion, timestamp, tasks\x7d` envelope and write it to the slot.  The
write succeeds in this model (quota exhaustion is outside it), and the
`Date.now()` timestamp, which nothing ever reads back, is modelled as 0. -/
def saveTasks (tasks : List Task) : StoredPayload :=
  .parsed { version := "1.0", timestamp := 0,
            tasksField := some (tasks.map encodeTask) }

/-- `loadTasks` from `storage.js`, returning the loaded tasks together
with the slot as the function leaves it: an absent slot and a slot whose
parse throws both yield no tasks, and the thrown case removes the slot;
a parsed non-object or an envelope without a well-formed `tasks` array
yields no tasks and leaves the slot alone; otherwise the entries passing
the shape filter are returned in order. -/
def loadTasks : StoredPayload → List Task × StoredPayload
  | .absent => ([], .absent)
  | .corrupted => ([], .absent)
  | .parsedNonObject => ([], .parsedNonObject)
  | .parsed env =>
    match env.tasksField with
    | none => ([], .parsed env)
    | some entries => (entries.filterMap decodeEntry, .parsed env)

/-- The state owned by the application class: the in-memory task array and
the storage slot it persists to. -/
structure StoreState where
  tasks : List Task
  stored : StoredPayload
deriving DecidableEq, Repr

/-- The distinct failure exits of `addTask`: the `validateTaskText`
failure, the duplicate warning `This task already exists`, and the
`validateTaskObject` failure. -/
inductive AddErr where
  | invalidInput (msg : String)
  | duplicateTask
  | invalidObject (msg : String)
deriving DecidableEq, Repr

/-- `addTask` from the application class: validate the raw text, check
for duplicates against the current tasks using the sanitized text,
create and re-validate the task object, prepend it via `unshift`, and
persist.  The fresh id and timestamp are inputs of the model. -/
def addTask (s : StoreState) (text : Option (List Char)) (newId : Nat) (now : String) :
    StoreState × Except AddErr Task :=
  if (validateTaskText text).isValid then
    match (validateTaskText text).sanitizedText with
    | some st =>
      if checkForDuplicates st s.tasks then (s, .error .duplicateTask)
      else
        match validateTaskObject (createTask st newId now) with
        | .ok sanitizedTask =>
          ({ tasks := sanitizedTask :: s.tasks,
             stored := saveTasks (sanitizedTask :: s.tasks) }, .ok sanitizedTask)
        | .error m => (s, .error (.invalidObject m))
    | none => (s, .error (.invalidInput (validateTaskText text).message))
  else (s, .error (.invalidInput (validateTaskText text).message))

/-- Removal of the first task with a given id, as
`findIndex` followed by `splice(index, 1)` does it. -/
def removeFirstById : List Task → Nat → List Task
  | [], _ => []
  | t :: ts, taskId => if t.id = taskId then ts else t :: removeFirstById ts taskId

/-- `removeTask` from the application class: if some task has the id,
splice out the first such task and persist; otherwise do nothing (the
active code signals no error on a missing id). -/
def removeTask (s : StoreState) (taskId : Nat) : StoreState :=
  if s.tasks.any fun t => t.id == taskId then
    let tasks := removeFirstById s.tasks taskId
    { tasks := tasks, stored := saveTasks tasks }
  else s

/-- Flip the `completed` field of the first task with a given id, as
mutating the result of `find` does. -/
def toggleFirst : List Task → Nat → List Task
  | [], _ => []
  | t :: ts, taskId =>
    if t.id = taskId then { t with completed := !t.completed } :: ts
    else t :: toggleFirst ts taskId

/-- `toggleTaskCompletion` from the application class: if some task has
the id, flip its `completed` flag and persist; otherwise do nothing. -/
def toggleTaskCompletion (s : StoreState) (taskId : Nat) : StoreState :=
  if s.tasks.any fun t => t.id == taskId then
    let tasks := toggleFirst s.tasks taskId
    { tasks := tasks, stored := saveTasks tasks }
  else s

/-- `clearCompletedTasks` from the application class, on the path where
the confirmation dialog is accepted: if no task is completed, nothing
changes (only a warning is shown); otherwise the completed tasks are
filtered out and the remainder persisted. -/
def clearCompletedTasks (s : StoreState) : StoreState :=
  if (s.tasks.filter fun t => t.completed).length = 0 then s
  else
    let tasks := s.tasks.filter fun t => !t.completed
    { tasks := tasks, stored := saveTasks tasks }

/-- Initialisation (`init` in the application class): load the tasks from
the slot; the slot itself is whatever `loadTasks` left behind. -/
def initState (slot : StoredPayload) : StoreState :=
  { tasks := (loadTasks slot).1, stored := (loadTasks slot).2 }

/-- The store states reachable from a given state by the four mutating
operations of the application class. -/
inductive ReachableFrom (s₀ : StoreState) : StoreState → Prop where
  | refl : ReachableFrom s₀ s₀
  | add (s : StoreState) (text : Option (List Char)) (newId : Nat) (now : String) :
      ReachableFrom s₀ s → ReachableFrom s₀ (addTask s text newId now).1
  | toggle (s : StoreState) (taskId : Nat) :
      ReachableFrom s₀ s → ReachableFrom s₀ (toggleTaskCompletion s taskId)
  | remove (s : StoreState) (taskId : Nat) :
      ReachableFrom s₀ s → ReachableFrom s₀ (removeTask s taskId)
  | clear (s : StoreState) :
      ReachableFrom s₀ s → ReachableFrom s₀ (clearCompletedTasks s)

/-- A task whose text passes `validateTaskText`. -/
def textValid (t : Task) : Prop :=
  (validateTaskText (some t.text)).isValid = true

instance (t : Task) : Decidable (textValid t) := by
  unfold textValid; infer_instance

/-- `filterTasks` from the render module.  The filter argument is an
`Option String` so that the `undefined` filter (`none`) also lands in the
`default` branch of the switch. -/
def filterTasks (tasks : List Task) (filter : Option String) : List Task :=
  if filter = some "active" then tasks.filter fun task => !task.completed
  else if filter = some "completed" then tasks.filter fun task => task.completed
  else tasks

example : (addTask ⟨[], .absent⟩ (some "Buy milk".toList) 1 "t").2 =
    .ok ⟨1, "Buy milk".toList, false, "t"⟩ := by decide
example : (addTask ⟨[⟨1, "Buy milk".toList, false, "t"⟩], .absent⟩
    (some " BUY Milk ".toList) 2 "u").2 = .error .duplicateTask := by decide
example : (loadTasks (saveTasks [⟨1, "a".toList, false, "t"⟩])).1 =
    [⟨1, "a".toList, false, "t"⟩] := by decide

/-! ### Helper lemmas about trimming and the validator -/

/-- `jsTrim` is the composition of a leading and a trailing
`dropWhile`; the trailing half is Mathlib's `List.rdropWhile`. -/
theorem jsTrim_eq_rdrop (l : List Char) :
    jsTrim l = (l.dropWhile jsWhitespace).rdropWhile jsWhitespace := rfl

/-- A trimmed string has no leading whitespace. -/
theorem dropWhile_jsTrim (l : List Char) :
    (jsTrim l).dropWhile jsWhitespace = jsTrim l := by
  rw [jsTrim_eq_rdrop]
  rw [List.dropWhile_eq_self_iff]
  intro h0
  have hpre : (l.dropWhile jsWhitespace).rdropWhile jsWhitespace <+: l.dropWhile jsWhitespace :=
    List.rdropWhile_prefix _ _
  have hlen : 0 < (l.dropWhile jsWhitespace).length :=
    Nat.lt_of_lt_of_le h0 hpre.length_le
  have hda : (l.dropWhile jsWhitespace).dropWhile jsWhitespace = l.dropWhile jsWhitespace :=
    List.dropWhile_idempotent _ _
  rw [List.dropWhile_eq_self_iff] at hda
  have hg := hpre.getElem (n := 0) h0
  simpa [List.get_eq_getElem, hg] using hda hlen

/-- Trimming is idempotent. -/
theorem jsTrim_idem (l : List Char) : jsTrim (jsTrim l) = jsTrim l := by
  rw [jsTrim_eq_rdrop (jsTrim l), dropWhile_jsTrim, jsTrim_eq_rdrop]
  exact List.rdropWhile_idempotent _ _

/-- Full success form of the validator: if the result is valid, it is
exactly the success record carrying the trimmed text. -/
theorem validate_success_form (l : List Char)
    (h : (validateTaskText (some l)).isValid = true) :
    validateTaskText (some l) = ⟨true, "", some (jsTrim l)⟩ := by
  simp only [validateTaskText] at h ⊢
  split_ifs at h ⊢
  simp_all

/-- The validator succeeds exactly when the string is non-empty and its
trimmed form passes every content check. -/
theorem validate_valid_iff (l : List Char) :
    (validateTaskText (some l)).isValid = true ↔
      (l ≠ [] ∧ 1 ≤ (jsTrim l).length ∧ (jsTrim l).length ≤ 200 ∧
       allowedAll (jsTrim l) = true ∧ hasForbidden (jsTrim l) = false ∧
       hasWsRun (jsTrim l) = false ∧ hasRepeatRun (jsTrim l) = false) := by
  simp only [validateTaskText]
  split_ifs with h1 h2 h3 h4 h5 h6 h7 <;> simp_all
  exact List.length_pos.mpr h2

/-- A text accepted by the validator is still accepted after trimming
(idempotence of validation on its own output). -/
theorem validate_trim_valid (l : List Char)
    (h : (validateTaskText (some l)).isValid = true) :
    (validateTaskText (some (jsTrim l))).isValid = true := by
  rw [validate_valid_iff] at h ⊢
  obtain ⟨h1, h2, h3, h4, h5, h6, h7⟩ := h
  rw [jsTrim_idem]
  refine ⟨fun hnil => ?_, h2, h3, h4, h5, h6, h7⟩
  rw [hnil] at h2
  simp at h2

/-- On success `sanitizedText` is the trimmed input. -/
theorem validate_sanitized (l : List Char)
    (h : (validateTaskText (some l)).isValid = true) :
    (validateTaskText (some l)).sanitizedText = some (jsTrim l) := by
  rw [validate_success_form l h]

/-! ### Helper lemmas about the object validator, the store operations
and the storage gateway -/

/-- A successful `validateTaskObject` returns the task with trimmed text,
and the text had passed `validateTaskText`. -/
theorem validateTaskObject_ok (t t' : Task) (h : validateTaskObject t = .ok t') :
    t' = { t with text := jsTrim t.text } ∧
      (validateTaskText (some t.text)).isValid = true := by
  unfold validateTaskObject at h
  split_ifs at h with h1 h2 h3
  · rw [validate_sanitized _ h3] at h
    simp only [Except.ok.injEq] at h
    exact ⟨h.symm, h3⟩

/-- The task produced by a successful `validateTaskObject` has valid text. -/
theorem textValid_of_ok (t t' : Task) (h : validateTaskObject t = .ok t') :
    textValid t' := by
  obtain ⟨rfl, hv⟩ := validateTaskObject_ok t t' h
  exact validate_trim_valid _ hv

/-- `addTask` either leaves the state alone or prepends one text-valid
task and persists the new collection. -/
theorem addTask_fst_cases (s : StoreState) (text : Option (List Char))
    (newId : Nat) (now : String) :
    (addTask s text newId now).1 = s ∨
      ∃ t', textValid t' ∧
        (addTask s text newId now).1 =
          { tasks := t' :: s.tasks, stored := saveTasks (t' :: s.tasks) } := by
  unfold addTask
  split_ifs with h1
  case neg => left; rfl
  cases hs : (validateTaskText text).sanitizedText with
  | none => left; rfl
  | some st =>
    simp only
    split_ifs with h2
    · left; rfl
    · cases ho : validateTaskObject (createTask st newId now) with
      | error m => left; rfl
      | ok t' => exact Or.inr ⟨t', textValid_of_ok _ _ ho, rfl⟩

/-- A successful `addTask` prepends exactly the returned task. -/
theorem addTask_ok (s : StoreState) (text : Option (List Char)) (newId : Nat)
    (now : String) (s' : StoreState) (t' : Task)
    (h : addTask s text newId now = (s', .ok t')) :
    s' = { tasks := t' :: s.tasks, stored := saveTasks (t' :: s.tasks) } := by
  unfold addTask at h
  split_ifs at h with h1
  · cases hs : (validateTaskText text).sanitizedText with
    | none => rw [hs] at h; dsimp only at h; simp at h
    | some st =>
      rw [hs] at h
      dsimp only at h
      split_ifs at h with h2
      · simp at h
      · cases ho : validateTaskObject (createTask st newId now) with
        | error m => rw [ho] at h; dsimp only at h; simp at h
        | ok u =>
          rw [ho] at h
          dsimp only at h
          simp only [Prod.mk.injEq, Except.ok.injEq] at h
          rw [← h.1, ← h.2]
  · simp at h

/-- Decoding inverts encoding. -/
theorem decodeEntry_encodeTask (t : Task) : decodeEntry (encodeTask t) = some t := rfl

/-- Loading right after saving returns exactly the saved tasks and leaves
the slot as saved. -/
theorem loadTasks_saveTasks (tasks : List Task) :
    loadTasks (saveTasks tasks) = (tasks, saveTasks tasks) := by
  simp only [saveTasks, loadTasks, List.filterMap_map]
  congr 1
  have : (fun t => decodeEntry (encodeTask t)) = fun t => some t := by
    funext t; exact decodeEntry_encodeTask t
  rw [show decodeEntry ∘ encodeTask = some from funext decodeEntry_encodeTask]
  exact List.filterMap_some _

/-- `loadTasks` is stable: loading from the slot it leaves behind yields
the same result. -/
theorem loadTasks_stable (slot : StoredPayload) :
    loadTasks (loadTasks slot).2 = loadTasks slot := by
  cases slot with
  | absent => rfl
  | corrupted => rfl
  | parsedNonObject => rfl
  | parsed env => cases h : env.tasksField <;> simp [loadTasks, h]

/-- Toggling preserves ids positionally. -/
theorem toggleFirst_map_id (ts : List Task) (taskId : Nat) :
    (toggleFirst ts taskId).map Task.id = ts.map Task.id := by
  induction ts with
  | nil => rfl
  | cons t ts ih => unfold toggleFirst; split_ifs <;> simp_all

/-- Toggling preserves texts positionally. -/
theorem toggleFirst_map_text (ts : List Task) (taskId : Nat) :
    (toggleFirst ts taskId).map Task.text = ts.map Task.text := by
  induction ts with
  | nil => rfl
  | cons t ts ih => unfold toggleFirst; split_ifs <;> simp_all

/-- Toggling preserves creation timestamps positionally. -/
theorem toggleFirst_map_createdAt (ts : List Task) (taskId : Nat) :
    (toggleFirst ts taskId).map Task.createdAt = ts.map Task.createdAt := by
  induction ts with
  | nil => rfl
  | cons t ts ih => unfold toggleFirst; split_ifs <;> simp_all

/-- Toggling preserves length. -/
theorem toggleFirst_length (ts : List Task) (taskId : Nat) :
    (toggleFirst ts taskId).length = ts.length := by
  have h := congrArg List.length (toggleFirst_map_id ts taskId)
  simpa using h

/-- A position holding a task whose id differs from the toggled one is
untouched (optional-indexing form). -/
theorem toggleFirst_getq_ne (ts : List Task) (taskId : Nat) (j : Nat)
    (h : ∀ t, ts[j]? = some t → t.id ≠ taskId) :
    (toggleFirst ts taskId)[j]? = ts[j]? := by
  induction ts generalizing j with
  | nil => rfl
  | cons t ts ih =>
    unfold toggleFirst
    split_ifs with ht
    · cases j with
      | zero => exact absurd ht (h t (by simp))
      | succ j => simp
    · cases j with
      | zero => simp
      | succ j =>
        simp only [List.getElem?_cons_succ] at h ⊢
        exact ih j h

/-- A task whose id differs from the toggled one is untouched. -/
theorem toggleFirst_getElem_ne (ts : List Task) (taskId : Nat) (j : Nat)
    (hj : j < ts.length) (hj' : j < (toggleFirst ts taskId).length)
    (h : (ts.get ⟨j, hj⟩).id ≠ taskId) :
    (toggleFirst ts taskId).get ⟨j, hj'⟩ = ts.get ⟨j, hj⟩ := by
  have hq : (toggleFirst ts taskId)[j]? = ts[j]? := by
    refine toggleFirst_getq_ne ts taskId j fun u hu => ?_
    have : u = ts.get ⟨j, hj⟩ := by
      rw [List.getElem?_eq_getElem hj] at hu
      exact (Option.some.inj hu).symm
    rw [this]
    exact h
  rw [List.getElem?_eq_getElem hj, List.getElem?_eq_getElem hj'] at hq
  simpa [List.get_eq_getElem] using Option.some.inj hq

/-- Toggling twice restores the collection. -/
theorem toggleFirst_toggleFirst (ts : List Task) (taskId : Nat) :
    toggleFirst (toggleFirst ts taskId) taskId = ts := by
  induction ts with
  | nil => rfl
  | cons t ts ih =>
    by_cases ht : t.id = taskId
    · obtain ⟨i, tx, c, ca⟩ := t
      simp only at ht
      subst ht
      simp [toggleFirst, Bool.not_not]
    · simp [toggleFirst, ht, ih]

/-- Removal of a present id shortens the list by exactly one. -/
theorem removeFirstById_length (ts : List Task) (taskId : Nat)
    (h : (ts.any fun t => t.id == taskId) = true) :
    (removeFirstById ts taskId).length + 1 = ts.length := by
  induction ts with
  | nil => simp at h
  | cons t ts ih =>
    unfold removeFirstById
    split_ifs with ht
    · rfl
    · have h2 : (ts.any fun t => t.id == taskId) = true := by
        simp only [List.any_cons, Bool.or_eq_true] at h
        rcases h with h | h
        · exact absurd (by simpa using h) ht
        · exact h
      simp [ih h2]

/-- Removal only drops elements. -/
theorem removeFirstById_subset (ts : List Task) (taskId : Nat) (t : Task)
    (h : t ∈ removeFirstById ts taskId) : t ∈ ts := by
  induction ts with
  | nil => simp [removeFirstById] at h
  | cons u ts ih =>
    unfold removeFirstById at h
    split_ifs at h with ht
    · exact List.mem_cons_of_mem _ h
    · rcases List.mem_cons.mp h with h | h
      · exact h ▸ List.mem_cons_self _ _
      · exact List.mem_cons_of_mem _ (ih h)

/-- With pairwise-distinct ids, no task with the removed id survives. -/
theorem removeFirstById_not_mem (ts : List Task) (taskId : Nat)
    (hnd : (ts.map Task.id).Nodup) :
    ∀ t ∈ removeFirstById ts taskId, t.id ≠ taskId := by
  induction ts with
  | nil => simp [removeFirstById]
  | cons u ts ih =>
    simp only [List.map_cons, List.nodup_cons] at hnd
    unfold removeFirstById
    split_ifs with ht
    · intro t htmem heq
      exact hnd.1 (by rw [ht, ← heq]; exact List.mem_map_of_mem _ htmem)
    · intro t htmem heq
      rcases List.mem_cons.mp htmem with h | h
      · exact ht (h ▸ heq)
      · exact ih hnd.2 t h heq

/-- The all-texts-valid invariant: every task in memory and every task
denoted by the persisted slot passes `validateTaskText`. -/
def AllValid (s : StoreState) : Prop :=
  (∀ t ∈ s.tasks, textValid t) ∧ (∀ t ∈ (loadTasks s.stored).1, textValid t)

/-- Text validity only depends on the text. -/
theorem textValid_congr (t u : Task) (h : t.text = u.text) :
    textValid t ↔ textValid u := by
  unfold textValid
  rw [h]

/-- `addTask` preserves the all-texts-valid invariant. -/
theorem AllValid_addTask (s : StoreState) (text : Option (List Char))
    (newId : Nat) (now : String) (h : AllValid s) :
    AllValid (addTask s text newId now).1 := by
  rcases addTask_fst_cases s text newId now with hc | ⟨t', hv, hc⟩
  · rw [hc]; exact h
  · rw [hc]
    constructor
    · intro u hu
      rcases List.mem_cons.mp hu with rfl | hu
      · exact hv
      · exact h.1 u hu
    · intro u hu
      rw [loadTasks_saveTasks] at hu
      rcases List.mem_cons.mp hu with rfl | hu
      · exact hv
      · exact h.1 u hu

/-- `toggleTaskCompletion` preserves the all-texts-valid invariant. -/
theorem AllValid_toggle (s : StoreState) (taskId : Nat) (h : AllValid s) :
    AllValid (toggleTaskCompletion s taskId) := by
  unfold toggleTaskCompletion
  split_ifs with hp
  · have hmem : ∀ t ∈ toggleFirst s.tasks taskId, textValid t := by
      intro t ht
      have : t.text ∈ (toggleFirst s.tasks taskId).map Task.text :=
        List.mem_map_of_mem _ ht
      rw [toggleFirst_map_text] at this
      obtain ⟨u, hu, hut⟩ := List.mem_map.mp this
      exact (textValid_congr t u hut.symm).mpr (h.1 u hu)
    exact ⟨hmem, by rw [loadTasks_saveTasks]; exact hmem⟩
  · exact h

/-- `removeTask` preserves the all-texts-valid invariant. -/
theorem AllValid_remove (s : StoreState) (taskId : Nat) (h : AllValid s) :
    AllValid (removeTask s taskId) := by
  unfold removeTask
  split_ifs with hp
  · have hmem : ∀ t ∈ removeFirstById s.tasks taskId, textValid t :=
      fun t ht => h.1 t (removeFirstById_subset _ _ _ ht)
    exact ⟨hmem, by rw [loadTasks_saveTasks]; exact hmem⟩
  · exact h

/-- `clearCompletedTasks` preserves the all-texts-valid invariant. -/
theorem AllValid_clear (s : StoreState) (h : AllValid s) :
    AllValid (clearCompletedTasks s) := by
  unfold clearCompletedTasks
  split_ifs with hp
  · exact h
  · have hmem : ∀ t ∈ s.tasks.filter (fun t => !t.completed), textValid t :=
      fun t ht => h.1 t (List.mem_of_mem_filter ht)
    exact ⟨hmem, by rw [loadTasks_saveTasks]; exact hmem⟩

/-- `checkForDuplicates` fires exactly when some existing task has the
same trim-and-lowercase normalised text. -/
theorem checkForDuplicates_iff (st : List Char) (ts : List Task) :
    checkForDuplicates st ts = true ↔
      ∃ t ∈ ts, normalizeText t.text = normalizeText st := by
  unfold checkForDuplicates
  rw [decide_eq_true_iff, List.length_pos]
  simp

/-- If the validator did not succeed there is no sanitized text. -/
theorem sanitized_none_of_invalid (o : Option (List Char))
    (h : ¬ (validateTaskText o).isValid = true) :
    (validateTaskText o).sanitizedText = none := by
  cases o with
  | none => rfl
  | some l =>
    simp only [validateTaskText] at h ⊢
    split_ifs at h ⊢ <;> simp_all

/-! ### Example data used by the concrete witnesses -/

/-- A sample task. -/
def buyMilk : Task := ⟨1, "Buy milk".toList, false, "t0"⟩

/-- A second sample task, already completed. -/
def walkDog : Task := ⟨2, "Walk dog".toList, true, "t1"⟩

/-- A store holding `buyMilk`, persisted. -/
def exampleStore : StoreState := ⟨[buyMilk], saveTasks [buyMilk]⟩

/-- A store holding both sample tasks, persisted. -/
def exampleStore2 : StoreState := ⟨[buyMilk, walkDog], saveTasks [buyMilk, walkDog]⟩

/-- An empty store with no persisted slot. -/
def exampleEmpty : StoreState := ⟨[], .absent⟩

/-! ### The claims -/

/-- C3: for every collection and every raw text whose sanitized
(validator-cleaned) form has the same trim-and-lowercase normalisation as
the text of some existing task, `addTask` fails with `DuplicateTask` and
the state — in particular the collection length — is unchanged.  The
duplicate check runs on the sanitized text `st`, never on the raw
input. -/
theorem addTask_duplicate (s : StoreState) (text : Option (List Char))
    (newId : Nat) (now : String) (st : List Char)
    (hst : (validateTaskText text).sanitizedText = some st)
    (hdup : ∃ t ∈ s.tasks, normalizeText t.text = normalizeText st) :
    addTask s text newId now = (s, .error .duplicateTask) := by
  unfold addTask
  split_ifs with h1
  · rw [hst]
    dsimp only
    rw [if_pos ((checkForDuplicates_iff st s.tasks).mpr hdup)]
  · rw [sanitized_none_of_invalid text h1] at hst
    simp at hst

/-- Witness for C3: adding `" BUY Milk "` to a store already containing
`"Buy milk"` fails with the duplicate error and leaves the store as it
was. -/
theorem addTask_duplicate_witness :
    addTask exampleStore (some " BUY Milk ".toList) 9 "u" =
      (exampleStore, .error .duplicateTask) :=
  addTask_duplicate exampleStore (some " BUY Milk ".toList) 9 "u"
    ("BUY Milk".toList) (by decide) (by decide)

/-- C4: `loadTasks` on a corrupted (unparsable) payload returns the empty
sequence and removes the slot; on a parsed payload whose `tasks` field is
missing or not an array it returns the empty sequence without mutating
the slot; otherwise it returns, in order, exactly the entries whose `id`
is a number, `text` is a string and `completed` is a boolean, dropping
every other entry.  The embedding is a total function, so no case
throws. -/
theorem loadTasks_behaviour :
    loadTasks .corrupted = ([], .absent) ∧
    loadTasks .parsedNonObject = ([], .parsedNonObject) ∧
    (∀ v ts, loadTasks (.parsed ⟨v, ts, none⟩) = ([], .parsed ⟨v, ts, none⟩)) ∧
    (∀ v ts entries,
       loadTasks (.parsed ⟨v, ts, some entries⟩) =
         (entries.filterMap decodeEntry, .parsed ⟨v, ts, some entries⟩)) ∧
    (∀ e t, decodeEntry e = some t ↔
       ∃ i tx c ca, e = .obj ⟨.num i, .str tx, .bool c, ca⟩ ∧ t = ⟨i, tx, c, ca⟩) := by
  refine ⟨rfl, rfl, fun v ts => rfl, fun v ts entries => rfl, fun e t => ?_⟩
  constructor
  · intro h
    cases e with
    | nonObj => simp [decodeEntry] at h
    | obj r =>
      obtain ⟨ri, rt, rc, rca⟩ := r
      cases ri with
      | num i =>
        cases rt with
        | str tx =>
          cases rc with
          | bool c =>
            simp only [decodeEntry, Option.some.injEq] at h
            exact ⟨i, tx, c, rca, rfl, h.symm⟩
          | num n => simp [decodeEntry] at h
          | str s2 => simp [decodeEntry] at h
          | other => simp [decodeEntry] at h
        | num n => cases rc <;> simp [decodeEntry] at h
        | bool b => cases rc <;> simp [decodeEntry] at h
        | other => cases rc <;> simp [decodeEntry] at h
      | str s => cases rt <;> cases rc <;> simp [decodeEntry] at h
      | bool b => cases rt <;> cases rc <;> simp [decodeEntry] at h
      | other => cases rt <;> cases rc <;> simp [decodeEntry] at h
  · rintro ⟨i, tx, c, ca, rfl, rfl⟩
    rfl

/-- C5: loading immediately after saving returns exactly the saved
collection, order and fields preserved (and leaves the slot as saved). -/
theorem load_save_roundtrip (tasks : List Task) :
    loadTasks (saveTasks tasks) = (tasks, saveTasks tasks) :=
  loadTasks_saveTasks tasks

/-- C10: for every filter other than `"active"` and `"completed"` —
including `"all"` and `undefined` (`none`) — `filterTasks` returns the
input collection unchanged. -/
theorem filterTasks_default (tasks : List Task) (filter : Option String)
    (h1 : filter ≠ some "active") (h2 : filter ≠ some "completed") :
    filterTasks tasks filter = tasks := by
  unfold filterTasks
  rw [if_neg h1, if_neg h2]

/-- Witness for C10 at the filter `"all"`. -/
theorem filterTasks_default_witness :
    filterTasks [buyMilk] (some "all") = [buyMilk] :=
  filterTasks_default [buyMilk] (some "all") (by decide) (by decide)

/-- C8: a successful `addTask` prepends the new task (most-recent-first)
and leaves the pre-existing tasks, in order, as the tail; the three
filtered views are sublists of the collection, hence preserve its
order. -/
theorem addTask_prepends (s : StoreState) (text : Option (List Char)) (newId : Nat)
    (now : String) (s' : StoreState) (t' : Task)
    (h : addTask s text newId now = (s', .ok t')) :
    s'.tasks = t' :: s.tasks ∧
    filterTasks s'.tasks (some "all") = s'.tasks ∧
    List.Sublist (filterTasks s'.tasks (some "active")) s'.tasks ∧
    List.Sublist (filterTasks s'.tasks (some "completed")) s'.tasks := by
  have hs := addTask_ok s text newId now s' t' h
  refine ⟨by rw [hs], ?_, ?_, ?_⟩
  · rfl
  · exact List.filter_sublist _
  · exact List.filter_sublist _

/-- Witness for C8: adding `"Buy milk"` to the empty store. -/
theorem addTask_prepends_witness :
    exampleStore.tasks = buyMilk :: exampleEmpty.tasks ∧
    filterTasks exampleStore.tasks (some "all") = exampleStore.tasks ∧
    List.Sublist (filterTasks exampleStore.tasks (some "active")) exampleStore.tasks ∧
    List.Sublist (filterTasks exampleStore.tasks (some "completed")) exampleStore.tasks :=
  addTask_prepends exampleEmpty (some "Buy milk".toList) 1 "t0"
    exampleStore buyMilk (by decide)

/-- Toggling does not change which ids are present. -/
theorem toggleFirst_any_id (ts : List Task) (taskId : Nat) :
    ((toggleFirst ts taskId).any fun t => t.id == taskId) =
      (ts.any fun t => t.id == taskId) := by
  induction ts with
  | nil => rfl
  | cons t ts ih =>
    unfold toggleFirst
    split_ifs with ht <;> simp_all [List.any_cons]

/-- C7: for a present id, toggling twice restores the collection exactly,
and after each single call the persisted slot loads back to precisely the
in-memory collection. -/
theorem toggle_involutive (s : StoreState) (taskId : Nat)
    (h : (s.tasks.any fun t => t.id == taskId) = true) :
    (toggleTaskCompletion (toggleTaskCompletion s taskId) taskId).tasks = s.tasks ∧
    (loadTasks (toggleTaskCompletion s taskId).stored).1 =
      (toggleTaskCompletion s taskId).tasks ∧
    (loadTasks (toggleTaskCompletion (toggleTaskCompletion s taskId) taskId).stored).1 =
      (toggleTaskCompletion (toggleTaskCompletion s taskId) taskId).tasks := by
  have h1 : toggleTaskCompletion s taskId =
      ⟨toggleFirst s.tasks taskId, saveTasks (toggleFirst s.tasks taskId)⟩ := by
    unfold toggleTaskCompletion; rw [if_pos h]
  have hpres : ((toggleFirst s.tasks taskId).any fun t => t.id == taskId) = true := by
    rw [toggleFirst_any_id]; exact h
  have h2 : toggleTaskCompletion (toggleTaskCompletion s taskId) taskId =
      ⟨s.tasks, saveTasks s.tasks⟩ := by
    rw [h1]
    unfold toggleTaskCompletion
    dsimp only
    rw [if_pos hpres, toggleFirst_toggleFirst]
  refine ⟨by rw [h2], ?_, ?_⟩
  · rw [h1]; dsimp only; rw [loadTasks_saveTasks]
  · rw [h2]; dsimp only; rw [loadTasks_saveTasks]

/-- Witness for C7: toggling task 2 of the two-task store twice. -/
theorem toggle_involutive_witness :
    (toggleTaskCompletion (toggleTaskCompletion exampleStore2 2) 2).tasks =
      exampleStore2.tasks ∧
    (loadTasks (toggleTaskCompletion exampleStore2 2).stored).1 =
      (toggleTaskCompletion exampleStore2 2).tasks ∧
    (loadTasks (toggleTaskCompletion (toggleTaskCompletion exampleStore2 2) 2).stored).1 =
      (toggleTaskCompletion (toggleTaskCompletion exampleStore2 2) 2).tasks :=
  toggle_involutive exampleStore2 2 (by decide)

/-- C9: for a present id, toggling preserves the collection length and
order, the `id`, `text` and `createdAt` of every task (including the
toggled one), and leaves every task with a different id entirely
unchanged — only the targeted task's `completed` field can change. -/
theorem toggle_frame (s : StoreState) (taskId : Nat)
    (h : (s.tasks.any fun t => t.id == taskId) = true) :
    (toggleTaskCompletion s taskId).tasks.length = s.tasks.length ∧
    (toggleTaskCompletion s taskId).tasks.map Task.id = s.tasks.map Task.id ∧
    (toggleTaskCompletion s taskId).tasks.map Task.text = s.tasks.map Task.text ∧
    (toggleTaskCompletion s taskId).tasks.map Task.createdAt =
      s.tasks.map Task.createdAt ∧
    ∀ j (hj : j < s.tasks.length)
      (hj' : j < (toggleTaskCompletion s taskId).tasks.length),
      (s.tasks.get ⟨j, hj⟩).id ≠ taskId →
        (toggleTaskCompletion s taskId).tasks.get ⟨j, hj'⟩ = s.tasks.get ⟨j, hj⟩ := by
  have h1 : toggleTaskCompletion s taskId =
      ⟨toggleFirst s.tasks taskId, saveTasks (toggleFirst s.tasks taskId)⟩ := by
    unfold toggleTaskCompletion; rw [if_pos h]
  rw [h1]
  exact ⟨toggleFirst_length _ _, toggleFirst_map_id _ _, toggleFirst_map_text _ _,
    toggleFirst_map_createdAt _ _,
    fun j hj hj' hne => toggleFirst_getElem_ne _ _ j hj hj' hne⟩

/-- Witness for C9: toggling task 2 of the two-task store keeps every
text in place. -/
theorem toggle_frame_witness :
    (toggleTaskCompletion exampleStore2 2).tasks.map Task.text =
      exampleStore2.tasks.map Task.text :=
  (toggle_frame exampleStore2 2 (by decide)).2.2.1

/-- A stored payload carrying two entries with the same id 5: `loadTasks`
checks only field types, so both load. -/
def dupSlot : StoredPayload :=
  .parsed ⟨"1.0", 7, some [
    .obj ⟨.num 5, .str "Buy milk".toList, .bool false, "t0"⟩,
    .obj ⟨.num 5, .str "Walk dog".toList, .bool false, "t1"⟩]⟩

/-- Counterexample to C1 as stated: in the collection loaded from
`dupSlot`, id 5 belongs to two tasks; `removeTask 5` splices out only the
first match, so the length does drop by one but a task with id 5
remains — "no task with that id remains afterwards" fails for this
collection. -/
theorem removeTask_counterexample :
    ((initState dupSlot).tasks.any fun t => t.id == 5) = true ∧
    ((removeTask (initState dupSlot) 5).tasks.any fun t => t.id == 5) = true ∧
    (removeTask (initState dupSlot) 5).tasks.length + 1 =
      (initState dupSlot).tasks.length := by decide

/-- C1 (amended): removing an id carried by no task leaves the store
unchanged (the active code signals no error and aborts silently); for a
collection whose task ids are pairwise distinct, removing a present id
decreases the length by exactly one and no task with that id remains. -/
theorem removeTask_amended (s : StoreState) (taskId : Nat) :
    ((s.tasks.any fun t => t.id == taskId) = false → removeTask s taskId = s) ∧
    ((s.tasks.map Task.id).Nodup → (s.tasks.any fun t => t.id == taskId) = true →
      (removeTask s taskId).tasks.length + 1 = s.tasks.length ∧
      ((removeTask s taskId).tasks.all fun t => !(t.id == taskId)) = true) := by
  constructor
  · intro h
    unfold removeTask
    rw [if_neg (by simp [h])]
  · intro hnd hp
    have h1 : removeTask s taskId =
        ⟨removeFirstById s.tasks taskId, saveTasks (removeFirstById s.tasks taskId)⟩ := by
      unfold removeTask; rw [if_pos hp]
    rw [h1]
    refine ⟨removeFirstById_length _ _ hp, ?_⟩
    rw [List.all_eq_true]
    intro t ht
    have hne := removeFirstById_not_mem s.tasks taskId hnd t ht
    simp [hne]

/-- Witness for C1 (amended): removing task 2 from the two-task store. -/
theorem removeTask_amended_witness :
    (removeTask exampleStore2 2).tasks.length + 1 = exampleStore2.tasks.length ∧
    ((removeTask exampleStore2 2).tasks.all fun t => !(t.id == 2)) = true :=
  (removeTask_amended exampleStore2 2).2 (by decide) (by decide)

/-- A stored payload whose single entry has the right field types but an
empty text: the shape filter of `loadTasks` accepts it although the text
fails `validateTaskText`. -/
def badSlot : StoredPayload :=
  .parsed ⟨"1.0", 3, some [.obj ⟨.num 1, .str [], .bool false, "t0"⟩]⟩

/-- Counterexample to C2 as stated: the state obtained by initialising
from `badSlot` is reachable (it is the initial state itself) yet holds a
task whose text fails `validateTaskText` — `loadTasks` checks only that
`text` is a string, not that it is valid. -/
theorem validity_invariant_counterexample :
    ReachableFrom (initState badSlot) (initState badSlot) ∧
    ((initState badSlot).tasks.all fun t =>
      (validateTaskText (some t.text)).isValid) = false :=
  ⟨.refl, by decide⟩

/-- C2 (amended): provided every task loaded at initialisation has text
satisfying `validateTaskText` (in particular when the slot starts empty),
every store state reachable by `addTask`, `toggleTaskCompletion`,
`removeTask` and `clearCompletedTasks` keeps all texts valid, both in
memory and in the persisted slot; in particular `addTask` never inserts a
task with invalid text. -/
theorem validity_invariant_amended (slot : StoredPayload) (s : StoreState)
    (hr : ReachableFrom (initState slot) s)
    (hinit : ∀ t ∈ (initState slot).tasks, textValid t) :
    (∀ t ∈ s.tasks, textValid t) ∧ (∀ t ∈ (loadTasks s.stored).1, textValid t) := by
  have hbase : AllValid (initState slot) := by
    refine ⟨hinit, fun t ht => ?_⟩
    unfold initState at ht
    dsimp only at ht
    rw [loadTasks_stable slot] at ht
    exact hinit t ht
  induction hr with
  | refl => exact hbase
  | add s text newId now hr ih => exact AllValid_addTask s text newId now ih
  | toggle s taskId hr ih => exact AllValid_toggle s taskId ih
  | remove s taskId hr ih => exact AllValid_remove s taskId ih
  | clear s hr ih => exact AllValid_clear s ih

/-- Witness for C2 (amended): after adding `"Buy milk"` to a store
initialised from an absent slot, all texts are valid. -/
theorem validity_invariant_witness :
    ((addTask (initState .absent) (some "Buy milk".toList) 1 "t0").1.tasks.all
      fun t => (validateTaskText (some t.text)).isValid) = true := by
  have h := validity_invariant_amended .absent
    (addTask (initState .absent) (some "Buy milk".toList) 1 "t0").1
    (.add _ _ _ _ .refl) (by decide)
  rw [List.all_eq_true]
  intro t ht
  exact h.1 t ht

/-- Counterexample to C6 as stated: on the whitespace-only input `" "`,
which is empty after trimming, rule (1) of the claim predicts the
'required' failure, but the code passes the initial truthiness check and
fails the minimum-length check with the distinct 'cannot be empty'
message. -/
theorem validateTaskText_order_counterexample :
    jsTrim " ".toList = [] ∧ " ".toList ≠ [] ∧
    validateTaskText (some " ".toList) = ⟨false, msgEmpty, none⟩ ∧
    msgEmpty ≠ msgRequired := by decide

/-- C6 (amended): `validateTaskText` applies its rules in a fixed order
with the first failure winning: (1) a missing/non-string input or an
input empty before trimming fails with the 'required' message; (2) an
input empty after trimming fails with the 'cannot be empty' message and a
trimmed length above 200 fails with the 'too long' message; (3) a
character outside the allow-set fails 'invalid characters'; (4) a
case-insensitive forbidden-word substring fails 'forbidden content';
(5) three consecutive whitespace characters fail 'excessive whitespace';
(6) five identical consecutive characters fail 'repetitive characters';
on success the result carries the trimmed text as the cleaned value. -/
theorem validateTaskText_order_amended :
    validateTaskText none = ⟨false, msgRequired, none⟩ ∧
    validateTaskText (some []) = ⟨false, msgRequired, none⟩ ∧
    (∀ l, l ≠ [] → jsTrim l = [] →
       validateTaskText (some l) = ⟨false, msgEmpty, none⟩) ∧
    (∀ l, l ≠ [] → 200 < (jsTrim l).length →
       validateTaskText (some l) = ⟨false, msgTooLong, none⟩) ∧
    (∀ l, l ≠ [] → 1 ≤ (jsTrim l).length → (jsTrim l).length ≤ 200 →
       allowedAll (jsTrim l) = false →
       validateTaskText (some l) = ⟨false, msgInvalidChars, none⟩) ∧
    (∀ l, l ≠ [] → 1 ≤ (jsTrim l).length → (jsTrim l).length ≤ 200 →
       allowedAll (jsTrim l) = true → hasForbidden (jsTrim l) = true →
       validateTaskText (some l) = ⟨false, msgForbidden, none⟩) ∧
    (∀ l, l ≠ [] → 1 ≤ (jsTrim l).length → (jsTrim l).length ≤ 200 →
       allowedAll (jsTrim l) = true → hasForbidden (jsTrim l) = false →
       hasWsRun (jsTrim l) = true →
       validateTaskText (some l) = ⟨false, msgWhitespace, none⟩) ∧
    (∀ l, l ≠ [] → 1 ≤ (jsTrim l).length → (jsTrim l).length ≤ 200 →
       allowedAll (jsTrim l) = true → hasForbidden (jsTrim l) = false →
       hasWsRun (jsTrim l) = false → hasRepeatRun (jsTrim l) = true →
       validateTaskText (some l) = ⟨false, msgRepetitive, none⟩) ∧
    (∀ l, l ≠ [] → 1 ≤ (jsTrim l).length → (jsTrim l).length ≤ 200 →
       allowedAll (jsTrim l) = true → hasForbidden (jsTrim l) = false →
       hasWsRun (jsTrim l) = false → hasRepeatRun (jsTrim l) = false →
       validateTaskText (some l) = ⟨true, "", some (jsTrim l)⟩) := by
  refine ⟨rfl, rfl, ?_, ?_, ?_, ?_, ?_, ?_, ?_⟩
  · intro l h1 h2
    simp only [validateTaskText]
    rw [if_neg h1, if_pos (by rw [h2]; simp)]
  · intro l h1 h2
    simp only [validateTaskText]
    rw [if_neg h1, if_neg (by omega), if_pos (by omega)]
  · intro l h1 h2 h3 h4
    simp only [validateTaskText]
    rw [if_neg h1, if_neg (by omega), if_neg (by omega), if_pos (by simp [h4])]
  · intro l h1 h2 h3 h4 h5
    simp only [validateTaskText]
    rw [if_neg h1, if_neg (by omega), if_neg (by omega), if_neg (by simp [h4]),
      if_pos h5]
  · intro l h1 h2 h3 h4 h5 h6
    simp only [validateTaskText]
    rw [if_neg h1, if_neg (by omega), if_neg (by omega), if_neg (by simp [h4]),
      if_neg (by simp [h5]), if_pos h6]
  · intro l h1 h2 h3 h4 h5 h6 h7
    simp only [validateTaskText]
    rw [if_neg h1, if_neg (by omega), if_neg (by omega), if_neg (by simp [h4]),
      if_neg (by simp [h5]), if_neg (by simp [h6]), if_pos h7]
  · intro l h1 h2 h3 h4 h5 h6 h7
    simp only [validateTaskText]
    rw [if_neg h1, if_neg (by omega), if_neg (by omega), if_neg (by simp [h4]),
      if_neg (by simp [h5]), if_neg (by simp [h6]), if_neg (by simp [h7])]

/-- Witness for C6 (amended): the success rule applied to `"Buy milk"`. -/
theorem validateTaskText_order_witness :
    validateTaskText (some "Buy milk".toList) =
      ⟨true, "", some "Buy milk".toList⟩ := by
  have h := validateTaskText_order_amended.2.2.2.2.2.2.2.2
    "Buy milk".toList (by decide) (by decide) (by decide) (by decide)
    (by decide) (by decide) (by decide)
  rw [h]
  decide

end TaskFlow
